import Mathlib

/-!
Verification of the trim / unfolding analysis of `empyricalRMT/rmt/trim.py`.

The source is shallowly embedded: eigenvalues are rationals, numpy arrays are
lists, and the external collaborators (the HBOS outlier detector from `pyod`
and the `Smoother` fitting oracle) are parameters of the embedded functions,
since the claims quantify over every detector / smoother behaviour.
-/

namespace EmpyricalRMT

/-- Modelled from the spec: `empyricalRMT.utils.find_first` (the repository's
`utils` module is not part of the sources given here; §6 of the spec describes
it as a first-index exact-value search).  Returns the index of the first
occurrence of `value` in `arr`, or `none` when `value` does not occur.  The
Python function signals absence with `-1`; call sites below spell out the
`-1` behaviour explicitly. -/
def find_first {α : Type} [DecidableEq α] (arr : List α) (value : α) : Option Nat :=
  arr.findIdx? (fun a => decide (a = value))

/-- Modelled from the spec: `empyricalRMT.utils.find_last`, the last-index
exact-value search, `none` when `value` does not occur. -/
def find_last {α : Type} [DecidableEq α] : List α → α → Option Nat
  | [], _ => none
  | a :: as, value =>
    match find_last as value with
    | some i => some (i + 1)
    | none => if a = value then some 0 else none

/-- Modelled from the spec: the external step utility
`stepFunctionVectorized(reference, queries)` returns the count of reference
elements that are `≤` each query point (spec §6, "Step Utility"). -/
def stepFunctionVectorized (sample : List ℚ) (queries : List ℚ) : List ℚ :=
  queries.map (fun q => ((sample.countP (fun s => decide (s ≤ q))) : ℚ))

/-- The edge-correction block of `TrimReport.__get_trim_iters`
(trim.py lines 328-338), operating on the detector's boolean label array
(`true` = outlier).  The three `if` blocks are translated in order:

* `if is_outlier[0]:` — `start = find_first(is_outlier, False)`, then
  `for i in range(start, len): is_outlier[i] = False`.  When no `False`
  exists, the Python `find_first` yields `-1` and `range(-1, len)` writes
  `False` to index `-1` (the last element) and to `0 .. len-1`, i.e. the
  whole array becomes `False`; the `none` branch spells that out.
* `if is_outlier[-1]:` — `stop = find_last(is_outlier, False)`, then
  `for i in range(stop): is_outlier[i] = False`.  When no `False` exists,
  `range(-1)` is empty and nothing is written.
* the all-inlier fallback when neither end is an outlier.

Each block is a named stage; `edgeCorrect` is their composition in source
order.  This is the first `if` block. -/
def edgeStage1 (is_outlier : List Bool) : List Bool :=
  if is_outlier.headI = true then
    match find_first is_outlier false with
    | some start => is_outlier.take start ++ List.replicate (is_outlier.length - start) false
    | none => List.replicate is_outlier.length false
  else is_outlier

/-- The second `if` block, on the array left by the first. -/
def edgeStage2 (l1 : List Bool) : List Bool :=
  if l1.getLastD false = true then
    match find_last l1 false with
    | some stop => List.replicate stop false ++ l1.drop stop
    | none => l1
  else l1

/-- The all-inlier fallback block. -/
def edgeStage3 (l2 : List Bool) : List Bool :=
  if l2.headI = false ∧ l2.getLastD false = false then
    List.replicate l2.length false
  else l2

/-- The full edge correction: the three `if` blocks in source order. -/
def edgeCorrect (is_outlier : List Bool) : List Bool :=
  edgeStage3 (edgeStage2 (edgeStage1 is_outlier))

/-- One row group of the DataFrames stored in `trim_iters`: the columns
`eigs`, `steps`, `unfolded`, `sqe` and `cluster` (`true` = outlier, the
boolean form of the `"outlier"` label). -/
structure Snapshot where
  eigs : List ℚ
  steps : List ℚ
  unfolded : List ℚ
  sqe : List ℚ
  labels : List Bool
deriving DecidableEq

instance : Inhabited Snapshot := ⟨⟨[], [], [], [], []⟩⟩

/-- The body of the `while` loop of `__get_trim_iters` (trim.py lines 318-344):
take the inlier subset of the previous snapshot, run the detector on the
two-column `(eigs, steps)` table, edge-correct the labels, refit the default
smoother on the surviving eigenvalues and rebuild `unfolded` / `sqe`.
The `steps` column of the new snapshot is the (unrecomputed) inlier subset of
the previous `steps` column, exactly as in the source, where only
`df["unfolded"]` and `df["sqe"]` are overwritten.
`detect tol table` models `HBOS(tol=tolerance).fit(df[["eigs","steps"]]).labels_`,
and `smFit` models `Smoother(eigs).fit()`, returning `(unfolded, steps)`. -/
def trimStep (detect : ℚ → List (ℚ × ℚ) → List Bool)
    (smFit : List ℚ → List ℚ × List ℚ) (tol : ℚ) (prev : Snapshot) : Snapshot :=
  let rows := (prev.eigs.zip prev.steps).zip prev.labels
  let inliers := rows.filterMap (fun p => if p.2 = false then some p.1 else none)
  let inEigs := inliers.map Prod.fst
  let inSteps := inliers.map Prod.snd
  let raw := detect tol inliers
  let corrected := edgeCorrect raw
  let fit := smFit inEigs
  { eigs := inEigs
    steps := inSteps
    unfolded := fit.1
    sqe := (fit.1.zip fit.2).map (fun p => (p.1 - p.2) ^ 2)
    labels := corrected }

/-- The `while` loop of `__get_trim_iters` (trim.py lines 314-347).  `cur` is
`iter_results[-1]`, `totalLen` is `len(eigs)` (the untrimmed count), and
`fuel` is `max_iters - iters_run`, so the loop guard
`(len(iter_results[-1]) / len(eigs)) > max_trim and iters_run < max_iters`
becomes the ratio test plus structural recursion on `fuel`.
After appending the new snapshot the loop breaks when
`np.alltrue(~is_outlier)`, i.e. when every corrected label is inlier. -/
def trimLoop (detect : ℚ → List (ℚ × ℚ) → List Bool)
    (smFit : List ℚ → List ℚ × List ℚ) (tol maxTrim : ℚ) (totalLen : ℕ) :
    Snapshot → ℕ → List Snapshot
  | cur, 0 => [cur]
  | cur, fuel + 1 =>
    if ((cur.eigs.length : ℚ) / (totalLen : ℚ)) > maxTrim then
      let next := trimStep detect smFit tol cur
      if next.labels.all (fun b => b = false) then
        [cur, next]
      else
        cur :: trimLoop detect smFit tol maxTrim totalLen next fuel
    else [cur]

/-- Snapshot 0 of `TrimReport.__get_trim_iters` (trim.py lines 299-312): the
full spectrum with every point labelled inlier, `steps` from the step
utility, `unfolded` from the default smoother fit. -/
def initSnapshot (smFit : List ℚ → List ℚ × List ℚ) (eigs : List ℚ) : Snapshot :=
  let steps := stepFunctionVectorized eigs eigs
  let unfolded := (smFit eigs).1
  { eigs := eigs
    steps := steps
    unfolded := unfolded
    sqe := (unfolded.zip steps).map (fun p => (p.1 - p.2) ^ 2)
    labels := eigs.map (fun _ => false) }

/-- `TrimReport.__get_trim_iters`, assembled: initial snapshot, then the
loop. -/
def getTrimIters (detect : ℚ → List (ℚ × ℚ) → List Bool)
    (smFit : List ℚ → List ℚ × List ℚ) (tol maxTrim : ℚ) (maxIters : ℕ)
    (eigs : List ℚ) : List Snapshot :=
  trimLoop detect smFit tol maxTrim eigs.length (initSnapshot smFit eigs) maxIters

/-- `np.mean`: the arithmetic mean (0 on the empty list, where numpy yields
NaN; the claims below never touch that case). -/
def npMean (l : List ℚ) : ℚ := l.sum / (l.length : ℚ)

/-- `np.var(l, ddof=1)`: sample variance with one degree of freedom
correction.  The divisor is the rational `length - 1`, so a singleton gives
division by zero (0 in ℚ, NaN in numpy; again untouched by the claims). -/
def npVarDdof1 (l : List ℚ) : ℚ :=
  ((l.map (fun x => (x - npMean l) ^ 2)).sum) / ((l.length : ℚ) - 1)

/-- Modelled from the spec: `EXPECTED_GOE_MEAN` from `rmt/_constants.py`
(not among the sources given here); spec §4.2 gives `mean_norm =
(mean_spacing − 1) / 1`, i.e. the constant is 1. -/
def EXPECTED_GOE_MEAN : ℚ := 1

/-- Modelled from the spec: `EXPECTED_GOE_VARIANCE` from `rmt/_constants.py`;
spec §4.2 gives `var_norm = (var_spacing − 1) / 1`, i.e. the constant is 1. -/
def EXPECTED_GOE_VARIANCE : ℚ := 1

/-- `unfolded[1:] - unfolded[:-1]`: the successive differences. -/
def spacingsOf (unfolded : List ℚ) : List ℚ :=
  (unfolded.zip unfolded.tail).map (fun p => p.2 - p.1)

/-- `TrimReport.__evaluate_unfolding` (trim.py lines 428-442): returns
`(mean, var, score)` with `mean_weight = 0.05`. -/
def evaluate_unfolding (unfolded : List ℚ) : ℚ × ℚ × ℚ :=
  let spacings := spacingsOf unfolded
  let mean := npMean spacings
  let var := npVarDdof1 spacings
  let mean_weight : ℚ := 5 / 100
  let mean_norm := (mean - EXPECTED_GOE_MEAN) / EXPECTED_GOE_MEAN
  let var_norm := (var - EXPECTED_GOE_VARIANCE) / EXPECTED_GOE_VARIANCE
  (mean, var, var_norm + mean_weight * mean_norm)

/-- `np.round` to the nearest integer, rounding half to even (numpy / IEEE
semantics, as opposed to the half-up rounding of Mathlib's `round`). -/
def roundHalfEven (x : ℚ) : ℤ :=
  let f := ⌊x⌋
  let r := x - (f : ℚ)
  if r < 1 / 2 then f else if 1 / 2 < r then f + 1 else if Even f then f else f + 1

/-- `np.round(x, 3)`. -/
def round3 (x : ℚ) : ℚ := ((roundHalfEven (x * 1000) : ℤ) : ℚ) / 1000

/-- `TrimReport.__unfold_across_trims` (trim.py lines 352-426).
`fitAll xs` models `Smoother(xs).fit_all(poly_degrees, ...)`, a table of
named unfolded columns; `(fitAll eigs).map Prod.fst` models the
`dry_run=True` call that yields `col_names_base`.  The result is
`((column names, rows), all_unfolds)` where `all_unfolds` is the unfolded
table of the **last** trim snapshot processed (the leftover loop variable
stored into `self._all_unfolds`). -/
def unfold_across_trims (fitAll : List ℚ → List (String × List ℚ))
    (eigs : List ℚ) (trims : List Snapshot) :
    (List String × List (List ℚ)) × List (String × List ℚ) :=
  let colNamesBase := (fitAll eigs).map Prod.fst
  let rows := trims.map (fun trim =>
    let trimmed := trim.eigs
    let lowerTrimLength : ℤ := (find_first eigs trimmed.headI).elim (-1) Int.ofNat
    let upperTrimLength : ℤ :=
      (eigs.length : ℤ) - 1 - (find_last eigs (trimmed.getLastD 0)).elim (-1) Int.ofNat
    let allUnfolds := fitAll trimmed
    let trimPercent := round3 (100 * (1 - (trimmed.length : ℚ) / (eigs.length : ℚ)))
    let lowerPercent := 100 * (lowerTrimLength : ℚ) / (eigs.length : ℚ)
    let upperPercent := 100 * (upperTrimLength : ℚ) / (eigs.length : ℚ)
    trimPercent :: lowerPercent :: upperPercent ::
      allUnfolds.flatMap (fun c =>
        let r := evaluate_unfolding c.2
        [r.1, r.2.1, r.2.2]))
  let colNamesFinal := "trim_percent" :: "trim_low" :: "trim_high" ::
    colNamesBase.flatMap (fun name =>
      [name ++ "--mean_spacing", name ++ "--var_spacing", name ++ "--score"])
  let lastUnfolds := fitAll (trims.getLastD default).eigs
  ((colNamesFinal, rows), lastUnfolds)

/-- The state built by `TrimReport.__init__`. -/
structure TrimReportS where
  untrimmed : List ℚ
  trim_steps : List Snapshot
  unfold_info : List String × List (List ℚ)
  all_unfolds : List (String × List ℚ)
deriving DecidableEq

/-- `TrimReport.__init__` (trim.py lines 29-40): sorts the input ascending
(`np.sort`), runs `__get_trim_iters`, then `__unfold_across_trims`. -/
def TrimReport.build (detect : ℚ → List (ℚ × ℚ) → List Bool)
    (smFit : List ℚ → List ℚ × List ℚ) (fitAll : List ℚ → List (String × List ℚ))
    (maxTrim : ℚ) (maxIters : ℕ) (tol : ℚ) (eigenvalues : List ℚ) : TrimReportS :=
  let sorted := List.insertionSort (· ≤ ·) eigenvalues
  let steps := getTrimIters detect smFit tol maxTrim maxIters sorted
  let u := unfold_across_trims fitAll sorted steps
  { untrimmed := sorted
    trim_steps := steps
    unfold_info := u.1
    all_unfolds := u.2 }

/-- `pat` occurs as a substring of `s`; models the pandas column filter
`report.filter(regex=".*score.*")`. -/
def strContains (s pat : String) : Bool := decide (pat.toList <:+: s.toList)

/-- The score columns of the report: `report.filter(regex=".*score.*")`,
with the report modelled as a list of named columns. -/
def scoreCols (report : List (String × List ℚ)) : List (String × List ℚ) :=
  report.filter (fun c => strContains c.1 "score")

/-- Minimum of a list of rationals (pandas `Series.min` per column; 0 on the
empty column, where pandas yields NaN — untouched by the claims). -/
def listMin (l : List ℚ) : ℚ :=
  match l with
  | [] => 0
  | x :: xs => xs.foldl min x

/-- `Series.idxmin`: index of the first occurrence of the minimum. -/
def idxmin (l : List ℚ) : ℕ := l.findIdx (fun x => decide (x = listMin l))

/-- `np.median` of a column: sort, take the middle element (odd length) or
the mean of the two middle elements (even length). -/
def npMedian (l : List ℚ) : ℚ :=
  let s := List.insertionSort (· ≤ ·) l
  let n := l.length
  if n = 0 then 0
  else if n % 2 = 1 then s.getD (n / 2) 0
  else (s.getD (n / 2 - 1) 0 + s.getD (n / 2) 0) / 2

/-- Ordering of `(column name, statistic)` pairs by the statistic; models
both `Series.sort_values()` and `np.argsort` followed by indexing into the
column-name array (ties broken stably, per spec §4.3's tie-break note). -/
def leSnd (a b : String × ℚ) : Prop := a.2 ≤ b.2

instance : DecidableRel leSnd := fun a b => inferInstanceAs (Decidable (a.2 ≤ b.2))

instance : IsTotal (String × ℚ) leSnd := ⟨fun a b => le_total a.2 b.2⟩

instance : IsTrans (String × ℚ) leSnd := ⟨fun _ _ _ h1 h2 => le_trans h1 h2⟩

/-- `scores.abs().min()` as name/value pairs: for each score column, the
minimum of its absolute values (`scores` is already absolute, so the second
`.abs()` of the source is the identity here). -/
def colMinPairs (report : List (String × List ℚ)) : List (String × ℚ) :=
  (scoreCols report).map (fun c => (c.1, listMin (c.2.map (fun x => |x|))))

/-- `scores.abs().min().sort_values()[:3]`: the three score columns with the
lowest row-wise minimum absolute score. -/
def best_smoother_cols (report : List (String × List ℚ)) : List String :=
  ((List.insertionSort leSnd (colMinPairs report)).take 3).map Prod.fst

/-- Column lookup by name (pandas `report[col]`; empty when absent). -/
def lookupCol (report : List (String × List ℚ)) (name : String) : List ℚ :=
  ((report.find? (fun c => decide (c.1 = name))).map Prod.snd).getD []

/-- `report[best_smoother_cols].abs().idxmin()`: per best column, the row
index attaining the minimal absolute score. -/
def best_smoother_rows (report : List (String × List ℚ)) : List ℕ :=
  (best_smoother_cols report).map
    (fun n => idxmin ((lookupCol report n).map (fun x => |x|)))

/-- `scores.median()` as name/value pairs. -/
def medPairs (report : List (String × List ℚ)) : List (String × ℚ) :=
  (scoreCols report).map (fun c => (c.1, npMedian (c.2.map (fun x => |x|))))

/-- `scores.mean()` as name/value pairs. -/
def meanPairs (report : List (String × List ℚ)) : List (String × ℚ) :=
  (scoreCols report).map (fun c => (c.1, npMean (c.2.map (fun x => |x|))))

/-- `score_cols[np.argsort(median_scores)[:3]]`: the three score columns with
the lowest median absolute score. -/
def top3median (report : List (String × List ℚ)) : List String :=
  ((List.insertionSort leSnd (medPairs report)).take 3).map Prod.fst

/-- `score_cols[np.argsort(mean_scores)[:3]]`. -/
def top3mean (report : List (String × List ℚ)) : List String :=
  ((List.insertionSort leSnd (meanPairs report)).take 3).map Prod.fst

/-- `s.replace("--score", "")`: strips the score suffix from a column name. -/
def stripScore (s : String) : String := s.replace "--score" ""

/-- `top_smoothers_mean.intersection(top_smoothers_median)` followed by the
suffix strip; the Python set intersection is modelled as the filtered list. -/
def consistentOf (report : List (String × List ℚ)) : List String :=
  ((top3mean report).filter (fun n => decide (n ∈ top3median report))).map stripScore

/-- `TrimReport.summarize_trim_unfoldings` (trim.py lines 75-153), restricted
to the selection data the claims are about: the three best score-column
names, the row index of each one's minimal absolute score, and the
"consistent" smoother list.  (The returned per-row summaries and the
best-unfolded columns are projections of these.) -/
def summarize_trim_unfoldings (report : List (String × List ℚ)) :
    List String × List ℕ × List String :=
  (best_smoother_cols report, best_smoother_rows report, consistentOf report)

/-! ### Helper lemmas about `find_first`, `find_last` and `edgeCorrect` -/

lemma find_first_false_some {l : List Bool} {s : ℕ} (hf : find_first l false = some s) :
    s < l.length ∧ l.getD s true = false ∧ ∀ j, j < s → l.getD j false = true := by
  obtain ⟨hs, hps, hbefore⟩ := List.findIdx?_eq_some_iff_getElem.mp hf
  refine ⟨hs, ?_, ?_⟩
  · rw [List.getD_eq_getElem l true hs]
    simpa using hps
  · intro j hj
    have hjl : j < l.length := lt_trans hj hs
    rw [List.getD_eq_getElem l false hjl]
    have h2 := hbefore j hj
    simpa using h2

lemma find_first_false_none {l : List Bool} (hf : find_first l false = none) :
    ∀ b ∈ l, b = true := by
  intro b hb
  have := List.findIdx?_eq_none_iff.mp hf b hb
  simpa using this

lemma find_last_false_none {l : List Bool} (hf : find_last l false = none) :
    ∀ b ∈ l, b = true := by
  induction l with
  | nil => intro b hb; cases hb
  | cons a as ih =>
    intro b hb
    rw [find_last] at hf
    rcases h : find_last as false with _ | i
    · rw [h] at hf
      by_cases ha : a = false
      · simp [ha] at hf
      · rcases List.mem_cons.mp hb with hb | hb
        · subst hb
          simpa using ha
        · exact ih h b hb
    · rw [h] at hf
      cases hf

lemma find_last_false_some {l : List Bool} {t : ℕ} (hf : find_last l false = some t) :
    t < l.length ∧ l.drop t = false :: List.replicate (l.length - t - 1) true := by
  induction l generalizing t with
  | nil => cases hf
  | cons a as ih =>
    rw [find_last] at hf
    rcases h : find_last as false with _ | i
    · rw [h] at hf
      by_cases ha : a = false
      · rw [if_pos ha] at hf
        cases hf
        have has : ∀ b ∈ as, b = true := find_last_false_none h
        have : as = List.replicate as.length true := List.eq_replicate_of_mem has
        refine ⟨Nat.succ_pos _, ?_⟩
        simp [ha, List.length_cons]
        exact this
      · rw [if_neg ha] at hf
        cases hf
    · rw [h] at hf
      cases hf
      obtain ⟨hi, hd⟩ := ih h
      refine ⟨by simpa using Nat.succ_lt_succ hi, ?_⟩
      simpa [List.drop_succ_cons, Nat.succ_sub_succ] using hd

lemma getLastD_append_replicate (xs : List Bool) (k : ℕ) (b d : Bool) :
    (xs ++ List.replicate (k + 1) b).getLastD d = b := by
  rw [List.replicate_succ', ← List.append_assoc, List.getLastD_concat]

lemma headI_replicate_append (m : ℕ) (x : Bool) (ys : List Bool) :
    (List.replicate (m + 1) x ++ ys).headI = x := by
  simp [List.replicate_succ]

lemma edgeStage1_head_true_some {l : List Bool} {s : ℕ}
    (hh : l.headI = true) (hf : find_first l false = some s) :
    edgeStage1 l = l.take s ++ List.replicate (l.length - s) false := by
  unfold edgeStage1
  rw [if_pos hh, hf]

lemma edgeStage1_head_true_none {l : List Bool}
    (hh : l.headI = true) (hf : find_first l false = none) :
    edgeStage1 l = List.replicate l.length false := by
  unfold edgeStage1
  rw [if_pos hh, hf]

lemma edgeStage1_head_false {l : List Bool} (hh : l.headI = false) :
    edgeStage1 l = l := by
  unfold edgeStage1
  rw [if_neg (by rw [hh]; exact Bool.false_ne_true)]

lemma edgeStage2_last_false {l : List Bool} (hl : l.getLastD false = false) :
    edgeStage2 l = l := by
  unfold edgeStage2
  rw [if_neg (by rw [hl]; exact Bool.false_ne_true)]

lemma edgeStage2_last_true_some {l : List Bool} {t : ℕ}
    (hl : l.getLastD false = true) (hf : find_last l false = some t) :
    edgeStage2 l = List.replicate t false ++ l.drop t := by
  unfold edgeStage2
  rw [if_pos hl, hf]

lemma edgeStage3_head_true {l : List Bool} (hh : l.headI = true) :
    edgeStage3 l = l := by
  unfold edgeStage3
  rw [if_neg (by rw [hh]; rintro ⟨h1, h2⟩; cases h1)]

lemma edgeStage3_last_true {l : List Bool} (hl : l.getLastD false = true) :
    edgeStage3 l = l := by
  unfold edgeStage3
  rw [if_neg (by rw [hl]; rintro ⟨h1, h2⟩; cases h2)]

lemma edgeStage3_both_false {l : List Bool}
    (hh : l.headI = false) (hl : l.getLastD false = false) :
    edgeStage3 l = List.replicate l.length false := by
  unfold edgeStage3
  rw [if_pos ⟨hh, hl⟩]

/-- When the first label is outlier and an inlier exists at index `s`, the
correction keeps the outlier prefix `0 .. s-1` and forces everything from
`s` on to inlier. -/
lemma edgeCorrect_head_true_some {l : List Bool} {s : ℕ}
    (hh : l.headI = true) (hf : find_first l false = some s) :
    edgeCorrect l = List.replicate s true ++ List.replicate (l.length - s) false := by
  obtain ⟨hs, hgets, hpre⟩ := find_first_false_some hf
  have hs1 : 1 ≤ s := by
    rcases Nat.eq_zero_or_pos s with h0 | h1
    · exfalso
      cases l with
      | nil => exact absurd hs (by simp [h0])
      | cons a t =>
        subst h0
        simp only [List.headI_cons] at hh
        simp only [List.getD_cons_zero] at hgets
        rw [hh] at hgets
        cases hgets
    · exact h1
  have htake : l.take s = List.replicate s true := by
    apply List.ext_getElem
    · simp [List.length_take, Nat.min_eq_left (le_of_lt hs)]
    · intro n h1 h2
      have hns : n < s := by
        simpa [List.length_take, Nat.min_eq_left (le_of_lt hs)] using h1
      have hnl : n < l.length := lt_trans hns hs
      rw [List.getElem_take, List.getElem_replicate]
      have := hpre n hns
      rwa [List.getD_eq_getElem l false hnl] at this
  have hns1 : l.length - s = (l.length - s - 1) + 1 := by omega
  have hlastA :
      (List.replicate s true ++ List.replicate (l.length - s) false).getLastD false
        = false := by
    rw [hns1]
    exact getLastD_append_replicate _ _ _ _
  have hheadA :
      (List.replicate s true ++ List.replicate (l.length - s) false).headI = true := by
    rw [show s = (s - 1) + 1 by omega]
    exact headI_replicate_append _ _ _
  unfold edgeCorrect
  rw [edgeStage1_head_true_some hh hf, htake, edgeStage2_last_false hlastA,
    edgeStage3_head_true hheadA]

/-- When the first label is outlier and no inlier exists (the detector
flagged every point), the Python `range(-1, len)` loop clears the whole
array: the result is all-inlier. -/
lemma edgeCorrect_head_true_none {l : List Bool}
    (hh : l.headI = true) (hf : find_first l false = none) :
    edgeCorrect l = List.replicate l.length false := by
  have hnil : l ≠ [] := by
    rintro rfl
    simp [List.headI] at hh
  have hlen : l.length = (l.length - 1) + 1 := by
    have := List.length_pos.mpr hnil
    omega
  have hlastA : (List.replicate l.length false).getLastD false = false := by
    rw [hlen, List.replicate_succ', List.getLastD_concat]
  have hheadA : (List.replicate l.length false).headI = false := by
    rw [hlen, List.replicate_succ]
    simp
  unfold edgeCorrect
  rw [edgeStage1_head_true_none hh hf, edgeStage2_last_false hlastA,
    edgeStage3_both_false hheadA hlastA, List.length_replicate]

/-- When the first label is inlier and the last is outlier, the correction
keeps the outlier suffix after the last inlier (index `t`) and forces
everything up to `t` to inlier. -/
lemma edgeCorrect_head_false_last_true {l : List Bool} {t : ℕ}
    (hh : l.headI = false) (hl : l.getLastD false = true)
    (hf : find_last l false = some t) :
    edgeCorrect l = List.replicate (t + 1) false ++ List.replicate (l.length - t - 1) true := by
  obtain ⟨ht, hd⟩ := find_last_false_some hf
  have htlt : t < l.length - 1 := by
    rcases Nat.lt_or_ge t (l.length - 1) with h | h
    · exact h
    · exfalso
      have hk : l.length - t - 1 = 0 := by omega
      rw [hk] at hd
      have hlast : l.getLastD false = false := by
        have hdrop : l.drop t = [false] := by simpa using hd
        calc l.getLastD false = (l.take t ++ l.drop t).getLastD false := by
              rw [List.take_append_drop]
          _ = false := by rw [hdrop, List.getLastD_concat]
      rw [hlast] at hl
      cases hl
  have hsplit : List.replicate t false ++ l.drop t
      = List.replicate (t + 1) false ++ List.replicate (l.length - t - 1) true := by
    rw [hd, List.replicate_succ', List.append_assoc]
    rfl
  have hlastA : (List.replicate (t + 1) false
      ++ List.replicate (l.length - t - 1) true).getLastD false = true := by
    rw [show l.length - t - 1 = (l.length - t - 2) + 1 by omega]
    exact getLastD_append_replicate _ _ _ _
  unfold edgeCorrect
  rw [edgeStage1_head_false hh, edgeStage2_last_true_some hl hf, hsplit,
    edgeStage3_last_true hlastA]

/-- When neither end is an outlier, the fallback forces the whole label set
to all-inlier. -/
lemma edgeCorrect_head_false_last_false {l : List Bool}
    (hh : l.headI = false) (hl : l.getLastD false = false) :
    edgeCorrect l = List.replicate l.length false := by
  unfold edgeCorrect
  rw [edgeStage1_head_false hh, edgeStage2_last_false hl, edgeStage3_both_false hh hl]

/-- The corrected label array is always an outlier prefix followed by
inliers, or inliers followed by an outlier suffix. -/
lemma edgeCorrect_shape (l : List Bool) :
    ∃ p q, edgeCorrect l = List.replicate p true ++ List.replicate q false
      ∨ edgeCorrect l = List.replicate p false ++ List.replicate q true := by
  cases hh : l.headI with
  | true =>
    rcases hf : find_first l false with _ | s
    · exact ⟨0, l.length, Or.inl (by rw [edgeCorrect_head_true_none hh hf]; simp)⟩
    · exact ⟨s, l.length - s, Or.inl (edgeCorrect_head_true_some hh hf)⟩
  | false =>
    cases hl : l.getLastD false with
    | false =>
      exact ⟨l.length, 0, Or.inr (by rw [edgeCorrect_head_false_last_false hh hl]; simp)⟩
    | true =>
      rcases hf : find_last l false with _ | t
      · exfalso
        have hnil : l ≠ [] := by
          rintro rfl
          simp [List.getLastD] at hl
        have hmem : false ∈ l := by
          cases l with
          | nil => exact absurd rfl hnil
          | cons a as =>
            simp only [List.headI_cons] at hh
            rw [← hh]
            exact List.mem_cons_self a as
        have := find_last_false_none hf false hmem
        cases this
      · exact ⟨t + 1, l.length - t - 1, Or.inr (edgeCorrect_head_false_last_true hh hl hf)⟩

lemma getD_replicate_append {p q : ℕ} (x y : Bool) {n : ℕ} (hn : n < p + q) :
    (List.replicate p x ++ List.replicate q y).getD n false = if n < p then x else y := by
  have hnl : n < (List.replicate p x ++ List.replicate q y).length := by simpa using hn
  rw [List.getD_eq_getElem _ _ hnl]
  by_cases h : n < p
  · rw [if_pos h, List.getElem_append_left (by simpa using h)]
    simp
  · rw [if_neg h, List.getElem_append_right (by simpa using not_lt.mp h)]
    simp

/-- No outlier ever sits strictly between two inliers in a corrected array. -/
lemma edgeCorrect_no_interior (l : List Bool) :
    ∀ a b c, a < b → b < c → c < (edgeCorrect l).length →
      (edgeCorrect l).getD a false = false → (edgeCorrect l).getD c false = false →
      (edgeCorrect l).getD b false = false := by
  obtain ⟨p, q, h | h⟩ := edgeCorrect_shape l
  · intro a b c hab hbc hc ha hcf
    rw [h] at hc ha ⊢
    have hc2 : c < p + q := by simpa using hc
    rw [getD_replicate_append true false (by omega : a < p + q)] at ha
    rw [getD_replicate_append true false (by omega : b < p + q)]
    have hap : ¬ a < p := by
      intro h2
      rw [if_pos h2] at ha
      cases ha
    rw [if_neg (by omega)]
  · intro a b c hab hbc hc ha hcf
    rw [h] at hc hcf ⊢
    have hc2 : c < p + q := by simpa using hc
    rw [getD_replicate_append false true hc2] at hcf
    rw [getD_replicate_append false true (by omega : b < p + q)]
    have hcp : c < p := by
      by_contra h2
      rw [if_neg h2] at hcf
      cases hcf
    rw [if_pos (by omega)]

/-- The loop output always starts with the snapshot it was entered with. -/
lemma trimLoop_cons (detect : ℚ → List (ℚ × ℚ) → List Bool)
    (smFit : List ℚ → List ℚ × List ℚ) (tol maxTrim : ℚ) (totalLen : ℕ)
    (cur : Snapshot) (fuel : ℕ) :
    ∃ rest, trimLoop detect smFit tol maxTrim totalLen cur fuel = cur :: rest := by
  cases fuel with
  | zero => exact ⟨[], rfl⟩
  | succ n =>
    simp only [trimLoop]
    split_ifs with h1 h2
    · exact ⟨[trimStep detect smFit tol cur], rfl⟩
    · exact ⟨trimLoop detect smFit tol maxTrim totalLen (trimStep detect smFit tol cur) n, rfl⟩
    · exact ⟨[], rfl⟩

lemma trimLoop_length_le (detect : ℚ → List (ℚ × ℚ) → List Bool)
    (smFit : List ℚ → List ℚ × List ℚ) (tol maxTrim : ℚ) (totalLen : ℕ)
    (fuel : ℕ) : ∀ cur : Snapshot,
    (trimLoop detect smFit tol maxTrim totalLen cur fuel).length ≤ fuel + 1 := by
  induction fuel with
  | zero => intro cur; simp [trimLoop]
  | succ n ih =>
    intro cur
    simp only [trimLoop]
    split_ifs with h1 h2
    · simp
    · simpa using Nat.succ_le_succ (ih (trimStep detect smFit tol cur))
    · simp

/-- Every snapshot after the first one carries an edge-corrected label
array. -/
lemma trimLoop_tail_labels (detect : ℚ → List (ℚ × ℚ) → List Bool)
    (smFit : List ℚ → List ℚ × List ℚ) (tol maxTrim : ℚ) (totalLen : ℕ)
    (fuel : ℕ) : ∀ (cur : Snapshot) (x : Snapshot),
    x ∈ (trimLoop detect smFit tol maxTrim totalLen cur fuel).drop 1 →
    ∃ raw, x.labels = edgeCorrect raw := by
  induction fuel with
  | zero =>
    intro cur x hx
    simp [trimLoop] at hx
  | succ n ih =>
    intro cur x hx
    simp only [trimLoop] at hx
    split_ifs at hx with h1 h2
    · simp only [List.drop_succ_cons, List.drop_zero] at hx
      rcases List.mem_singleton.mp hx with rfl
      exact ⟨_, rfl⟩
    · simp only [List.drop_succ_cons, List.drop_zero] at hx
      obtain ⟨rest, hrest⟩ :=
        trimLoop_cons detect smFit tol maxTrim totalLen (trimStep detect smFit tol cur) n
      rw [hrest] at hx
      rcases List.mem_cons.mp hx with rfl | hxr
      · exact ⟨_, rfl⟩
      · apply ih (trimStep detect smFit tol cur)
        rw [hrest]
        simpa using hxr
    · simp at hx

/-! ### Claim theorems C1 - C4 -/

/-- C1: for every snapshot `i > 0` produced by the trim iteration, the
outlier-labelled points form a contiguous prefix or suffix: no point labelled
outlier lies strictly between two inlier-labelled points. -/
theorem C1_no_interior_outliers
    (detect : ℚ → List (ℚ × ℚ) → List Bool) (smFit : List ℚ → List ℚ × List ℚ)
    (tol maxTrim : ℚ) (maxIters : ℕ) (eigs : List ℚ) (i a b c : ℕ)
    (hi0 : 0 < i)
    (hi : i < (getTrimIters detect smFit tol maxTrim maxIters eigs).length)
    (hab : a < b) (hbc : b < c)
    (hc : c < ((getTrimIters detect smFit tol maxTrim maxIters eigs).getD i
        default).labels.length)
    (ha : ((getTrimIters detect smFit tol maxTrim maxIters eigs).getD i
        default).labels.getD a false = false)
    (hcf : ((getTrimIters detect smFit tol maxTrim maxIters eigs).getD i
        default).labels.getD c false = false) :
    ((getTrimIters detect smFit tol maxTrim maxIters eigs).getD i
        default).labels.getD b false = false := by
  have hid : i - 1 < ((getTrimIters detect smFit tol maxTrim maxIters eigs).drop 1).length := by
    rw [List.length_drop]
    omega
  have hgd : (getTrimIters detect smFit tol maxTrim maxIters eigs).getD i default
      = ((getTrimIters detect smFit tol maxTrim maxIters eigs).drop 1).getD (i - 1) default := by
    rw [List.getD_eq_getElem _ default hi, List.getD_eq_getElem _ default hid,
      List.getElem_drop]
    congr 1
    omega
  have hmem : (getTrimIters detect smFit tol maxTrim maxIters eigs).getD i default
      ∈ (getTrimIters detect smFit tol maxTrim maxIters eigs).drop 1 := by
    rw [hgd, List.getD_eq_getElem _ default hid]
    exact List.getElem_mem hid
  obtain ⟨raw, hraw⟩ := trimLoop_tail_labels detect smFit tol maxTrim eigs.length maxIters
    (initSnapshot smFit eigs) _ hmem
  rw [hraw] at hc ha hcf ⊢
  exact edgeCorrect_no_interior raw a b c hab hbc hc ha hcf

/-- A detector for the C1 witness: on the 4-point table it flags both ends;
the edge correction keeps only the left outlier, so snapshot 1's labels
become `[true, false, false, false]`. -/
def detC1 : ℚ → List (ℚ × ℚ) → List Bool := fun _ rows =>
  if rows.length = 4 then [true, false, false, true]
  else List.replicate rows.length false

/-- The identity smoother used by the concrete runs below: `fit` returns the
eigenvalues themselves as both unfolded values and steps. -/
def smId : List ℚ → List ℚ × List ℚ := fun xs => (xs, xs)

unseal Rat.mul Rat.sub Rat.inv in
theorem C1_no_interior_outliers_witness :
    ((getTrimIters detC1 smId 0 (1 / 2) 1 [0, 1, 2, 3]).getD 1
        default).labels.getD 2 false = false :=
  C1_no_interior_outliers detC1 smId 0 (1 / 2) 1 [0, 1, 2, 3] 1 1 2 3
    (by decide) (by decide) (by decide) (by decide) (by decide) (by decide) (by decide)

/-- C2 fails on the code: when both the first and the last point are flagged
outlier, the first-end correction forces everything from the first inlier
**to the end** to inlier, so the right-end outlier does not survive: the
corrected labels of `[outlier, inlier, outlier]` are
`[outlier, inlier, inlier]`, not `[outlier, inlier, outlier]`. -/
theorem C2_counterexample :
    edgeCorrect [true, false, true] = [true, false, false]
    ∧ edgeCorrect [true, false, true] ≠ [true, false, true] := by decide

/-- C2 amended: when the first point is outlier, the correction keeps the
contiguous outlier prefix before the first inlier and forces every point
from the first inlier **onward** to inlier (clearing any right-end
outliers); when no inlier exists at all, everything becomes inlier.  Only
when the first point is inlier and the last is outlier does a contiguous
suffix survive, with every point before the last inlier forced to inlier;
when neither end is outlier, the fallback clears all labels. -/
theorem C2_edge_correction_amended (l : List Bool) (s t : ℕ) :
    (l.headI = true → find_first l false = some s →
        edgeCorrect l = List.replicate s true ++ List.replicate (l.length - s) false)
    ∧ (l.headI = true → find_first l false = none →
        edgeCorrect l = List.replicate l.length false)
    ∧ (l.headI = false → l.getLastD false = true → find_last l false = some t →
        edgeCorrect l = List.replicate (t + 1) false ++ List.replicate (l.length - t - 1) true)
    ∧ (l.headI = false → l.getLastD false = false →
        edgeCorrect l = List.replicate l.length false) :=
  ⟨fun hh hf => edgeCorrect_head_true_some hh hf,
   fun hh hf => edgeCorrect_head_true_none hh hf,
   fun hh hl hf => edgeCorrect_head_false_last_true hh hl hf,
   fun hh hl => edgeCorrect_head_false_last_false hh hl⟩

theorem C2_edge_correction_amended_witness :
    edgeCorrect [true, true, false, true] = [true, true, false, false]
    ∧ edgeCorrect [true, true] = [false, false]
    ∧ edgeCorrect [false, true, false, true] = [false, false, false, true]
    ∧ edgeCorrect [false, true, false] = [false, false, false] :=
  ⟨(C2_edge_correction_amended [true, true, false, true] 2 0).1 (by decide) (by decide),
   (C2_edge_correction_amended [true, true] 0 0).2.1 (by decide) (by decide),
   (C2_edge_correction_amended [false, true, false, true] 0 2).2.2.1
     (by decide) (by decide) (by decide),
   (C2_edge_correction_amended [false, true, false] 0 0).2.2.2 (by decide) (by decide)⟩

/-- A detector for the C3 counterexample: on the 2-point table it flags the
first point, which the edge correction keeps. -/
def detC3 : ℚ → List (ℚ × ℚ) → List Bool := fun _ rows =>
  if rows.length = 2 then [true, false] else List.replicate rows.length false

unseal Rat.mul Rat.sub Rat.inv in
/-- C3 fails on the code: after iteration 1 the last snapshot has 1 inlier
out of 2 eigenvalues, so the claimed condition
`inlier_count / total > max_trim` is false at `max_trim = 1/2`; yet the loop
runs another iteration (3 snapshots in total), because the source divides
`len(iter_results[-1])` — the snapshot's total row count, outliers
included — by `len(eigs)`. -/
theorem C3_counterexample :
    (getTrimIters detC3 smId 0 (1 / 2) 7 [0, 1]).length = 3
    ∧ ((getTrimIters detC3 smId 0 (1 / 2) 7 [0, 1]).getD 1 default).labels.count false = 1
    ∧ ¬((((getTrimIters detC3 smId 0 (1 / 2) 7 [0, 1]).getD 1
            default).labels.count false : ℚ) / (([0, 1] : List ℚ).length : ℚ) > 1 / 2) := by
  refine ⟨by decide, by decide, ?_⟩
  have h1 : ((getTrimIters detC3 smId 0 (1 / 2) 7 [0, 1]).getD 1
      default).labels.count false = 1 := by decide
  rw [h1]
  norm_num

/-- C3 amended: the loop runs another iteration exactly when the **total**
number of points of the last snapshot (inliers and outliers together, i.e.
the inlier count of the snapshot before it) divided by the untrimmed
eigenvalue count exceeds `max_trim`, and iterations remain (`fuel` is
`max_iters - iters_run`; `getTrimIters` starts the loop with
`fuel = max_iters`). -/
theorem C3_loop_condition_amended
    (detect : ℚ → List (ℚ × ℚ) → List Bool) (smFit : List ℚ → List ℚ × List ℚ)
    (tol maxTrim : ℚ) (totalLen : ℕ) (cur : Snapshot) (fuel : ℕ) :
    1 < (trimLoop detect smFit tol maxTrim totalLen cur fuel).length ↔
      (((cur.eigs.length : ℚ) / (totalLen : ℚ) > maxTrim) ∧ 0 < fuel) := by
  cases fuel with
  | zero => simp [trimLoop]
  | succ n =>
    simp only [trimLoop]
    split_ifs with h1 h2
    · simp [h1]
    · constructor
      · intro _
        exact ⟨h1, Nat.succ_pos n⟩
      · intro _
        obtain ⟨rest, hrest⟩ :=
          trimLoop_cons detect smFit tol maxTrim totalLen (trimStep detect smFit tol cur) n
        simp [hrest]
    · simp [h1]

/-- C4: the loop always terminates; the snapshot sequence has at least one
element (the untrimmed snapshot) and at most `max_iterations + 1`. -/
theorem C4_termination_bounds
    (detect : ℚ → List (ℚ × ℚ) → List Bool) (smFit : List ℚ → List ℚ × List ℚ)
    (tol maxTrim : ℚ) (maxIters : ℕ) (eigs : List ℚ) :
    1 ≤ (getTrimIters detect smFit tol maxTrim maxIters eigs).length
    ∧ (getTrimIters detect smFit tol maxTrim maxIters eigs).length ≤ maxIters + 1 := by
  constructor
  · obtain ⟨rest, hrest⟩ := trimLoop_cons detect smFit tol maxTrim eigs.length
      (initSnapshot smFit eigs) maxIters
    rw [getTrimIters, hrest]
    simp
  · exact trimLoop_length_le detect smFit tol maxTrim eigs.length maxIters
      (initSnapshot smFit eigs)

/-! ### Claim theorems C5 - C7 -/

lemma length_spacingsOf (u : List ℚ) : (spacingsOf u).length = u.length - 1 := by
  simp [spacingsOf, List.length_zip, List.length_tail]

/-- C7: for a column with at least two values, the evaluator's mean is the
mean of the successive differences, the variance is their sample variance
with one degree of freedom correction, the score is
`(var - 1)/1 + 0.05 * (mean - 1)/1`, and the score is exactly 0 at the GOE
ideal `mean = 1`, `var = 1`. -/
theorem C7_evaluate_unfolding (u : List ℚ) (h2 : 2 ≤ u.length) :
    (evaluate_unfolding u).1 = (spacingsOf u).sum / ((u.length : ℚ) - 1)
    ∧ (evaluate_unfolding u).2.1 =
        ((spacingsOf u).map
            (fun d => (d - (spacingsOf u).sum / ((u.length : ℚ) - 1)) ^ 2)).sum
          / ((u.length : ℚ) - 2)
    ∧ (evaluate_unfolding u).2.2 =
        ((evaluate_unfolding u).2.1 - 1) / 1
          + (5 / 100) * (((evaluate_unfolding u).1 - 1) / 1)
    ∧ ((evaluate_unfolding u).1 = 1 → (evaluate_unfolding u).2.1 = 1 →
        (evaluate_unfolding u).2.2 = 0) := by
  have hcast : ((spacingsOf u).length : ℚ) = (u.length : ℚ) - 1 := by
    rw [length_spacingsOf, Nat.cast_sub (by omega : 1 ≤ u.length)]
    norm_num
  have e1 : (evaluate_unfolding u).1 = npMean (spacingsOf u) := rfl
  have e2 : (evaluate_unfolding u).2.1 = npVarDdof1 (spacingsOf u) := rfl
  have e3 : (evaluate_unfolding u).2.2 =
      ((evaluate_unfolding u).2.1 - EXPECTED_GOE_VARIANCE) / EXPECTED_GOE_VARIANCE
        + (5 / 100) * (((evaluate_unfolding u).1 - EXPECTED_GOE_MEAN) / EXPECTED_GOE_MEAN) :=
    rfl
  have hmean : (evaluate_unfolding u).1 = (spacingsOf u).sum / ((u.length : ℚ) - 1) := by
    rw [e1, npMean, hcast]
  refine ⟨hmean, ?_, ?_, ?_⟩
  · rw [e2, npVarDdof1, hcast]
    rw [show npMean (spacingsOf u) = (spacingsOf u).sum / ((u.length : ℚ) - 1) from
      by rw [npMean, hcast]]
    congr 1
    ring
  · rw [e3, EXPECTED_GOE_MEAN, EXPECTED_GOE_VARIANCE]
  · intro hm hv
    rw [e3, hm, hv, EXPECTED_GOE_MEAN, EXPECTED_GOE_VARIANCE]
    norm_num

unseal Rat.mul Rat.sub Rat.inv Rat.add in
theorem C7_evaluate_unfolding_witness :
    (evaluate_unfolding [0, 1, 3]).1
      = (spacingsOf [0, 1, 3]).sum / ((([0, 1, 3] : List ℚ).length : ℚ) - 1) :=
  (C7_evaluate_unfolding [0, 1, 3] (by decide)).1

/-- C5: the three configurations returned first by the selection are the
score columns sorted by their row-wise minimum absolute score; the first one
attains the global minimum of those column minima, and the three minima are
in ascending order. -/
theorem C5_best_selection (report : List (String × List ℚ))
    (h3 : 3 ≤ (colMinPairs report).length) :
    (summarize_trim_unfoldings report).1
        = ((List.insertionSort leSnd (colMinPairs report)).take 3).map Prod.fst
    ∧ (List.insertionSort leSnd (colMinPairs report)).headI ∈ colMinPairs report
    ∧ (∀ p ∈ colMinPairs report,
        (List.insertionSort leSnd (colMinPairs report)).headI.2 ≤ p.2)
    ∧ (((List.insertionSort leSnd (colMinPairs report)).take 3).map Prod.snd).Sorted
        (· ≤ ·) := by
  have hsorted : (List.insertionSort leSnd (colMinPairs report)).Sorted leSnd :=
    List.sorted_insertionSort leSnd (colMinPairs report)
  have hperm : (List.insertionSort leSnd (colMinPairs report)).Perm (colMinPairs report) :=
    List.perm_insertionSort leSnd (colMinPairs report)
  have hlen : 3 ≤ (List.insertionSort leSnd (colMinPairs report)).length := by
    rw [List.length_insertionSort]
    exact h3
  obtain ⟨a, tS, hS⟩ : ∃ a tS, List.insertionSort leSnd (colMinPairs report) = a :: tS := by
    cases hS : List.insertionSort leSnd (colMinPairs report) with
    | nil => rw [hS] at hlen; exact absurd hlen (by simp)
    | cons a tS => exact ⟨a, tS, rfl⟩
  refine ⟨rfl, ?_, ?_, ?_⟩
  · rw [hS, List.headI_cons]
    exact hperm.mem_iff.mp (by rw [hS]; exact List.mem_cons_self a tS)
  · intro p hp
    have hpS : p ∈ List.insertionSort leSnd (colMinPairs report) := hperm.symm.mem_iff.mp hp
    rw [hS] at hpS hsorted
    rw [hS, List.headI_cons]
    rcases List.mem_cons.mp hpS with rfl | hpt
    · exact le_refl _
    · exact List.rel_of_sorted_cons hsorted p hpt
  · have htake : (List.insertionSort leSnd (colMinPairs report)).take 3
        |>.Sorted leSnd :=
      List.Pairwise.sublist (List.take_sublist 3 _) hsorted
    exact List.pairwise_map.mpr htake

/-- The concrete report used by the C5 witness. -/
def reportW : List (String × List ℚ) :=
  [("trim_percent", [0, 10]), ("a--score", [2, -1]), ("b--score", [3, 3]),
    ("c--score", [-1 / 2, 4])]

unseal Rat.mul Rat.sub Rat.inv Rat.add in
theorem C5_best_selection_witness :
    3 ≤ (colMinPairs reportW).length
    ∧ (summarize_trim_unfoldings reportW).1 = ["c--score", "a--score", "b--score"] :=
  ⟨by decide,
   ((C5_best_selection reportW (by decide)).1).trans (by decide)⟩

/-- C6: the "consistent" list is the set intersection of the three
lowest-median and three lowest-mean score columns, names stripped of the
`--score` suffix; it therefore has at most 3 elements and every element is a
stripped score-column name of the report. -/
theorem C6_consistent (report : List (String × List ℚ)) :
    (summarize_trim_unfoldings report).2.2
        = ((top3mean report).filter (fun n => decide (n ∈ top3median report))).map stripScore
    ∧ (summarize_trim_unfoldings report).2.2.length ≤ 3
    ∧ ∀ x ∈ (summarize_trim_unfoldings report).2.2,
        ∃ c ∈ scoreCols report, x = stripScore c.1 := by
  refine ⟨rfl, ?_, ?_⟩
  · show (consistentOf report).length ≤ 3
    rw [consistentOf, List.length_map]
    calc ((top3mean report).filter (fun n => decide (n ∈ top3median report))).length
        ≤ (top3mean report).length := List.length_filter_le _ _
      _ ≤ 3 := by
          rw [top3mean, List.length_map]
          exact List.length_take_le 3 _
  · intro x hx
    obtain ⟨n, hn, rfl⟩ := List.mem_map.mp hx
    have hn2 : n ∈ top3mean report := List.mem_of_mem_filter hn
    rw [top3mean] at hn2
    obtain ⟨pr, hpr, rfl⟩ := List.mem_map.mp hn2
    have hpr2 : pr ∈ List.insertionSort leSnd (meanPairs report) :=
      List.mem_of_mem_take hpr
    have hpr3 : pr ∈ meanPairs report := (List.mem_insertionSort leSnd).mp hpr2
    rw [meanPairs] at hpr3
    obtain ⟨c, hc, hpc⟩ := List.mem_map.mp hpr3
    refine ⟨c, hc, ?_⟩
    rw [← hpc]

unseal Rat.mul Rat.sub Rat.inv Rat.add in
theorem C6_consistent_witness :
    (summarize_trim_unfoldings reportW).2.2.length ≤ 3 :=
  (C6_consistent reportW).2.1

/-! ### Claim theorems C8 - C10 -/

lemma map_eq_replicate_of_forall {α β : Type} (f : α → β) (l : List α) (b : β)
    (h : ∀ x, f x = b) : l.map f = List.replicate l.length b := by
  induction l with
  | nil => rfl
  | cons a as ih => simp [h, ih, List.replicate_succ]

/-- C8: the report has one row per snapshot and `3 + 3 * numConfigs`
columns, named `trim_percent`, `trim_low`, `trim_high` followed by
`<name>--mean_spacing`, `<name>--var_spacing`, `<name>--score` for each
configuration, in order.  The oracle hypotheses say the dry run on the full
spectrum lists the configuration names and that each per-trim `fit_all`
call returns one column per configuration. -/
theorem C8_report_shape (fitAll : List ℚ → List (String × List ℚ)) (eigs : List ℚ)
    (trims : List Snapshot) (names : List String)
    (hbase : (fitAll eigs).map Prod.fst = names)
    (htrims : (trims.all fun trim => (fitAll trim.eigs).length == names.length) = true) :
    ((unfold_across_trims fitAll eigs trims).1.2).length = trims.length
    ∧ (unfold_across_trims fitAll eigs trims).1.1
        = "trim_percent" :: "trim_low" :: "trim_high"
            :: names.flatMap
              (fun n => [n ++ "--mean_spacing", n ++ "--var_spacing", n ++ "--score"])
    ∧ ((unfold_across_trims fitAll eigs trims).1.1).length = 3 + 3 * names.length
    ∧ ∀ row ∈ (unfold_across_trims fitAll eigs trims).1.2,
        row.length = 3 + 3 * names.length := by
  have hnames : ∀ xs : List ℚ, (fitAll xs).length = ((fitAll xs).map Prod.fst).length := by
    intro xs
    rw [List.length_map]
  refine ⟨?_, ?_, ?_, ?_⟩
  · simp [unfold_across_trims]
  · simp [unfold_across_trims, hbase]
  · simp only [unfold_across_trims, hbase, List.length_cons, List.length_flatMap]
    rw [show (List.map (List.length ∘ fun n =>
        [n ++ "--mean_spacing", n ++ "--var_spacing", n ++ "--score"]) names)
        = List.replicate names.length 3 from
      map_eq_replicate_of_forall _ names 3 (fun x => rfl)]
    rw [List.sum_replicate, smul_eq_mul]
    ring
  · intro row hrow
    simp only [unfold_across_trims, List.mem_map] at hrow
    obtain ⟨trim, htrim, hrw⟩ := hrow
    have hlen : (fitAll trim.eigs).length = names.length := by
      have := List.all_eq_true.mp htrims trim htrim
      simpa using this
    rw [← hrw]
    simp only [List.length_cons, List.length_flatMap]
    rw [show (List.map (List.length ∘ fun c : String × List ℚ =>
        [(evaluate_unfolding c.2).1, (evaluate_unfolding c.2).2.1,
          (evaluate_unfolding c.2).2.2]) (fitAll trim.eigs))
        = List.replicate (fitAll trim.eigs).length 3 from
      map_eq_replicate_of_forall _ (fitAll trim.eigs) 3 (fun x => rfl)]
    rw [List.sum_replicate, smul_eq_mul, hlen]
    ring

/-- The one-configuration oracle used by the C8 witness. -/
def fitAllW : List ℚ → List (String × List ℚ) := fun xs => [("poly_3", xs)]

theorem C8_report_shape_witness :
    ((unfold_across_trims fitAllW [0, 1] [initSnapshot smId [0, 1]]).1.2).length
      = ([initSnapshot smId [0, 1]] : List Snapshot).length :=
  (C8_report_shape fitAllW [0, 1] [initSnapshot smId [0, 1]] ["poly_3"] rfl rfl).1

/-- C9: snapshot 0 is the full (sorted) spectrum with every point labelled
inlier, and row 0 of the report has `trim_percent = 0`. -/
theorem C9_snapshot0 (detect : ℚ → List (ℚ × ℚ) → List Bool)
    (smFit : List ℚ → List ℚ × List ℚ) (fitAll : List ℚ → List (String × List ℚ))
    (maxTrim : ℚ) (maxIters : ℕ) (tol : ℚ) (xs : List ℚ) (hne : xs ≠ []) :
    (TrimReport.build detect smFit fitAll maxTrim maxIters tol xs).trim_steps.headI.eigs
        = (TrimReport.build detect smFit fitAll maxTrim maxIters tol xs).untrimmed
    ∧ (TrimReport.build detect smFit fitAll maxTrim maxIters tol xs).trim_steps.headI.labels
        = List.replicate
            (TrimReport.build detect smFit fitAll maxTrim maxIters tol xs).untrimmed.length
            false
    ∧ (TrimReport.build detect smFit fitAll maxTrim maxIters tol xs).unfold_info.2.headI.headI
        = 0 := by
  obtain ⟨rest, hrest⟩ := trimLoop_cons detect smFit tol maxTrim
    (List.insertionSort (· ≤ ·) xs).length
    (initSnapshot smFit (List.insertionSort (· ≤ ·) xs)) maxIters
  have hsteps : (TrimReport.build detect smFit fitAll maxTrim maxIters tol xs).trim_steps
      = initSnapshot smFit (List.insertionSort (· ≤ ·) xs) :: rest := by
    rw [show (TrimReport.build detect smFit fitAll maxTrim maxIters tol xs).trim_steps
        = getTrimIters detect smFit tol maxTrim maxIters (List.insertionSort (· ≤ ·) xs)
        from rfl]
    rw [getTrimIters, hrest]
  have huntr : (TrimReport.build detect smFit fitAll maxTrim maxIters tol xs).untrimmed
      = List.insertionSort (· ≤ ·) xs := rfl
  have hlen0 : (List.insertionSort (· ≤ ·) xs).length ≠ 0 := by
    rw [List.length_insertionSort]
    simpa using hne
  refine ⟨?_, ?_, ?_⟩
  · rw [hsteps, List.headI_cons, huntr]
    rfl
  · rw [hsteps, List.headI_cons, huntr]
    show (List.insertionSort (· ≤ ·) xs).map (fun _ => false)
        = List.replicate (List.insertionSort (· ≤ ·) xs).length false
    exact List.map_const' _ _
  · have hinfo : (TrimReport.build detect smFit fitAll maxTrim maxIters tol xs).unfold_info
        = (unfold_across_trims fitAll (List.insertionSort (· ≤ ·) xs)
            (initSnapshot smFit (List.insertionSort (· ≤ ·) xs) :: rest)).1 := by
      rw [show (TrimReport.build detect smFit fitAll maxTrim maxIters tol xs).unfold_info
          = (unfold_across_trims fitAll (List.insertionSort (· ≤ ·) xs)
              (getTrimIters detect smFit tol maxTrim maxIters
                (List.insertionSort (· ≤ ·) xs))).1 from rfl]
      rw [getTrimIters, hrest]
    rw [hinfo]
    show round3 (100 * (1 - ((List.insertionSort (· ≤ ·) xs).length : ℚ)
        / ((List.insertionSort (· ≤ ·) xs).length : ℚ))) = 0
    rw [div_self (by exact_mod_cast hlen0)]
    norm_num [round3, roundHalfEven]

unseal Rat.mul Rat.sub Rat.inv in
theorem C9_snapshot0_witness :
    (TrimReport.build detC3 smId fitAllW (1 / 2) 7 0 [2, 1]).unfold_info.2.headI.headI
      = 0 :=
  (C9_snapshot0 detC3 smId fitAllW (1 / 2) 7 0 [2, 1] (by decide)).2.2

/-- C10: the constructor sorts its input, so the whole analysis is invariant
under permutations of the input array, and `untrimmed` is the sorted
sequence. -/
theorem C10_permutation_invariance (detect : ℚ → List (ℚ × ℚ) → List Bool)
    (smFit : List ℚ → List ℚ × List ℚ) (fitAll : List ℚ → List (String × List ℚ))
    (maxTrim : ℚ) (maxIters : ℕ) (tol : ℚ) (xs ys : List ℚ) (hperm : xs.Perm ys) :
    TrimReport.build detect smFit fitAll maxTrim maxIters tol xs
        = TrimReport.build detect smFit fitAll maxTrim maxIters tol ys
    ∧ (TrimReport.build detect smFit fitAll maxTrim maxIters tol xs).untrimmed
        = List.insertionSort (· ≤ ·) xs := by
  have hsort : List.insertionSort (· ≤ ·) xs = List.insertionSort (· ≤ ·) ys :=
    @List.eq_of_perm_of_sorted ℚ (· ≤ ·) _ _ _
      ((List.perm_insertionSort _ xs).trans
        (hperm.trans (List.perm_insertionSort (· ≤ ·) ys).symm))
      (List.sorted_insertionSort _ xs)
      (List.sorted_insertionSort _ ys)
  constructor
  · unfold TrimReport.build
    rw [hsort]
  · rfl

unseal Rat.mul Rat.sub Rat.inv in
theorem C10_permutation_invariance_witness :
    TrimReport.build detC3 smId fitAllW (1 / 2) 7 0 [2, 1]
      = TrimReport.build detC3 smId fitAllW (1 / 2) 7 0 [1, 2] :=
  (C10_permutation_invariance detC3 smId fitAllW (1 / 2) 7 0 [2, 1] [1, 2]
    (by decide)).1

end EmpyricalRMT
